import Mathlib

/-!
Verification development for the taxtastic repository: a shallow embedding of
the greengenes taxonomy loader (taxtastic/greengenes.py) and of the row loop of
the tax-id update subcommand (taxtastic/subcommands/update_taxids.py), together
with theorems checking the specification's claims against the embedded code.

Python strings are modelled as lists of characters (code points); Python
functions that can raise an exception return Option, with none standing for the
raised exception.
-/

namespace Taxtastic

/-- Python strings, modelled as lists of characters (code points). -/
abbrev PyStr := List Char

/-- Character for a decimal digit d with d < 10, as used by Python's decimal
formatting. -/
def digitChar (d : Nat) : Char := Char.ofNat (48 + d)

/-- Decimal digits of a number, least significant first; the first argument is
fuel so that the recursion is structural and the kernel can evaluate it. -/
def natDigitsAux : Nat → Nat → List Char
  | 0, _ => []
  | _ + 1, 0 => []
  | fuel + 1, n + 1 => digitChar ((n + 1) % 10) :: natDigitsAux fuel ((n + 1) / 10)

/-- Decimal representation of a natural number, most significant digit first,
as produced by Python's d format. -/
def natRepr (n : Nat) : List Char :=
  if n = 0 then ['0'] else (natDigitsAux n n).reverse

/-- Zero padding to width w, as done by Python's 08d format specifier. -/
def zfill (w : Nat) (s : List Char) : List Char :=
  List.replicate (w - s.length) '0' ++ s

/-- Synthesized greengenes identifier: models greengenes.py line 126, the
string GG followed by the counter value formatted with 08d. -/
def ggId (n : Nat) : List Char := 'G' :: 'G' :: zfill 8 (natRepr n)

/-- Reads decimal digit characters back into a number; used only to show that
ggId is injective. -/
def decodeDigits (s : List Char) : Nat :=
  s.foldl (fun a c => 10 * a + (c.toNat - 48)) 0

lemma digitChar_toNat {d : Nat} (h : d < 10) : (digitChar d).toNat = 48 + d := by
  interval_cases d <;> rfl

lemma decodeDigits_replicate_zero (k : Nat) (s : List Char) :
    decodeDigits (List.replicate k '0' ++ s) = decodeDigits s := by
  induction k with
  | zero => rfl
  | succ k ih =>
    have hstep : List.replicate (k + 1) '0' ++ s = '0' :: (List.replicate k '0' ++ s) := by
      simp [List.replicate_succ]
    rw [hstep]
    exact ih

lemma decodeDigits_reverse_aux :
    ∀ fuel n : Nat, n ≤ fuel → decodeDigits ((natDigitsAux fuel n).reverse) = n := by
  intro fuel
  induction fuel with
  | zero =>
    intro n hn
    interval_cases n
    rfl
  | succ fuel ih =>
    intro n hn
    match n with
    | 0 => rfl
    | m + 1 =>
      have hdiv : (m + 1) / 10 ≤ fuel := by
        have := Nat.div_lt_self (Nat.succ_pos m) (by norm_num : 1 < 10)
        omega
      have hfold :
          decodeDigits ((natDigitsAux fuel ((m + 1) / 10)).reverse ++ [digitChar ((m + 1) % 10)]) =
            10 * decodeDigits ((natDigitsAux fuel ((m + 1) / 10)).reverse) +
              ((digitChar ((m + 1) % 10)).toNat - 48) := by
        simp [decodeDigits, List.foldl_append]
      calc decodeDigits ((natDigitsAux (fuel + 1) (m + 1)).reverse)
          = decodeDigits ((natDigitsAux fuel ((m + 1) / 10)).reverse ++
              [digitChar ((m + 1) % 10)]) := by
            simp [natDigitsAux, List.reverse_cons]
        _ = 10 * decodeDigits ((natDigitsAux fuel ((m + 1) / 10)).reverse) +
              ((digitChar ((m + 1) % 10)).toNat - 48) := hfold
        _ = m + 1 := by
            rw [ih ((m + 1) / 10) hdiv, digitChar_toNat (Nat.mod_lt _ (by norm_num))]
            omega

lemma decodeDigits_natRepr (n : Nat) : decodeDigits (natRepr n) = n := by
  by_cases h : n = 0
  · subst h; rfl
  · rw [natRepr, if_neg h]
    exact decodeDigits_reverse_aux n n le_rfl

lemma ggId_injective : Function.Injective ggId := by
  intro m n h
  have h2 : zfill 8 (natRepr m) = zfill 8 (natRepr n) := by
    simpa [ggId] using h
  have h3 : decodeDigits (zfill 8 (natRepr m)) = decodeDigits (zfill 8 (natRepr n)) := by
    rw [h2]
  rwa [zfill, zfill, decodeDigits_replicate_zero, decodeDigits_replicate_zero,
    decodeDigits_natRepr, decodeDigits_natRepr] at h3

/-- Python string comparison (lexicographic by code point), as a boolean. -/
def strLt : PyStr → PyStr → Bool
  | [], [] => false
  | [], _ :: _ => true
  | _ :: _, [] => false
  | a :: as, b :: bs =>
    if a.toNat < b.toNat then true
    else if b.toNat < a.toNat then false
    else strLt as bs

lemma strLt_irrefl : ∀ l : PyStr, strLt l l = false := by
  intro l
  induction l with
  | nil => rfl
  | cons a as ih => simp [strLt, ih]

lemma strLt_trans :
    ∀ a b c : PyStr, strLt a b = true → strLt b c = true → strLt a c = true := by
  intro a
  induction a with
  | nil =>
    intro b c hab hbc
    cases b with
    | nil => simp [strLt] at hab
    | cons y ys =>
      cases c with
      | nil => simp [strLt] at hbc
      | cons z zs => rfl
  | cons x xs ih =>
    intro b c hab hbc
    cases b with
    | nil => simp [strLt] at hab
    | cons y ys =>
      cases c with
      | nil => simp [strLt] at hbc
      | cons z zs =>
        simp only [strLt] at hab hbc ⊢
        by_cases h1 : x.toNat < y.toNat
        · by_cases h2 : y.toNat < z.toNat
          · simp [Nat.lt_trans h1 h2]
          · by_cases h3 : z.toNat < y.toNat
            · simp [h2, h3] at hbc
            · have hxz : x.toNat < z.toNat := by omega
              simp [hxz]
        · by_cases h4 : y.toNat < x.toNat
          · simp [h1, h4] at hab
          · by_cases h2 : y.toNat < z.toNat
            · have hxz : x.toNat < z.toNat := by omega
              simp [hxz]
            · by_cases h3 : z.toNat < y.toNat
              · simp [h2, h3] at hbc
              · have e1 : ¬ x.toNat < z.toNat := by omega
                have e2 : ¬ z.toNat < x.toNat := by omega
                simp [h1, h4] at hab
                simp [h2, h3] at hbc
                simp [e1, e2]
                exact ih ys zs hab hbc

lemma isPrefixOf_refl : ∀ l : PyStr, l.isPrefixOf l = true := by
  intro l
  induction l with
  | nil => rfl
  | cons a as ih => simp [List.isPrefixOf, ih]

lemma isPrefixOf_exists : ∀ g t : PyStr, g.isPrefixOf t = true → ∃ s, t = g ++ s := by
  intro g
  induction g with
  | nil => intro t _; exact ⟨t, rfl⟩
  | cons a as ih =>
    intro t h
    cases t with
    | nil => simp [List.isPrefixOf] at h
    | cons b bs =>
      simp only [List.isPrefixOf, Bool.and_eq_true] at h
      obtain ⟨h1, h2⟩ := h
      obtain ⟨s, hs⟩ := ih bs h2
      exact ⟨s, by rw [hs, eq_of_beq h1]; rfl⟩

lemma isPrefixOf_length_lt {g t : PyStr} (h : g.isPrefixOf t = true) (hne : g ≠ t) :
    g.length < t.length := by
  obtain ⟨s, rfl⟩ := isPrefixOf_exists g t h
  cases s with
  | nil => simp at hne
  | cons c cs =>
    simp only [List.length_append, List.length_cons]
    omega

/-! Tax-ID Remapper: the row loop of update_taxids.action
(src/taxtastic/subcommands/update_taxids.py, lines 138-156). -/

/-- Disposition for unknown tax ids, the value of the unknown-action option. -/
inductive UnknownAction where
  | drop
  | ignore
  | error
deriving DecidableEq

/-- One input row: the value of the tax-id column plus the remaining cells. -/
structure CsvRow where
  taxId : String
  rest : List String
deriving DecidableEq

/-- Result of the remap run: rows written to the main output, rows written to
the unknowns sink, and whether the run was aborted by sys.exit. -/
structure RemapOut where
  out : List CsvRow
  unknowns : List CsvRow
  aborted : Bool
deriving DecidableEq

/-- Row loop of update_taxids.action (update_taxids.py lines 138-156).
validIds models all_tax_ids, merged models mergedict (an association list with
first-match lookup, as the dict has unique keys), hasUnknowns models whether an
unknowns sink was configured.  sys.exit stops the whole run: nothing after the
offending row is processed or written. -/
def action (validIds : List String) (merged : List (String × String))
    (act : UnknownAction) (hasUnknowns : Bool) : List CsvRow → RemapOut
  | [] => { out := [], unknowns := [], aborted := false }
  | row :: rest =>
    if validIds.contains row.taxId then
      let r := action validIds merged act hasUnknowns rest
      { out := row :: r.out, unknowns := r.unknowns, aborted := r.aborted }
    else
      match merged.lookup row.taxId with
      | some newId =>
        let r := action validIds merged act hasUnknowns rest
        { out := { row with taxId := newId } :: r.out,
          unknowns := r.unknowns, aborted := r.aborted }
      | none =>
        let u := if hasUnknowns then [row] else []
        match act with
        | .ignore =>
          let r := action validIds merged act hasUnknowns rest
          { out := row :: r.out, unknowns := u ++ r.unknowns, aborted := r.aborted }
        | .drop =>
          let r := action validIds merged act hasUnknowns rest
          { out := r.out, unknowns := u ++ r.unknowns, aborted := r.aborted }
        | .error => { out := [], unknowns := u, aborted := true }

/-- Valid-id set of the claim's concrete scenario. -/
def exValid : List String := ["1", "2"]

/-- Merged mapping of the claim's concrete scenario. -/
def exMerged : List (String × String) := [("3", "2")]

/-- Input rows with tax ids 1, 3, 9. -/
def exRows : List CsvRow := [⟨"1", ["a"]⟩, ⟨"3", ["b"]⟩, ⟨"9", ["c"]⟩]

/-- Claim C1: with valid ids 1,2 and merged mapping 3 to 2, on rows with ids
1,3,9 the drop disposition outputs rows with ids 1 and 2 only, the error
disposition aborts before any output for the row with id 9, and the ignore
disposition emits all three rows with id 9 unchanged; in every case a row with
a valid id passes through unchanged (even if also in the mapping), and a row
with an id that is only in the mapping is rewritten to the mapped id. -/
theorem C1_remap :
    action exValid exMerged .drop false exRows =
      { out := [⟨"1", ["a"]⟩, ⟨"2", ["b"]⟩], unknowns := [], aborted := false } ∧
    action exValid exMerged .error false exRows =
      { out := [⟨"1", ["a"]⟩, ⟨"2", ["b"]⟩], unknowns := [], aborted := true } ∧
    action exValid exMerged .ignore false exRows =
      { out := [⟨"1", ["a"]⟩, ⟨"2", ["b"]⟩, ⟨"9", ["c"]⟩], unknowns := [],
        aborted := false } ∧
    (∀ (validIds : List String) (merged : List (String × String))
        (act : UnknownAction) (hu : Bool) (row : CsvRow) (rest : List CsvRow),
      validIds.contains row.taxId = true →
      action validIds merged act hu (row :: rest) =
        { out := row :: (action validIds merged act hu rest).out,
          unknowns := (action validIds merged act hu rest).unknowns,
          aborted := (action validIds merged act hu rest).aborted }) ∧
    (∀ (validIds : List String) (merged : List (String × String))
        (act : UnknownAction) (hu : Bool) (row : CsvRow) (rest : List CsvRow)
        (newId : String),
      validIds.contains row.taxId = false →
      merged.lookup row.taxId = some newId →
      action validIds merged act hu (row :: rest) =
        { out := { row with taxId := newId } :: (action validIds merged act hu rest).out,
          unknowns := (action validIds merged act hu rest).unknowns,
          aborted := (action validIds merged act hu rest).aborted }) := by
  refine ⟨by decide, by decide, by decide, ?_, ?_⟩
  · intro validIds merged act hu row rest h
    have h2 : row.taxId ∈ validIds := by simpa using h
    simp [action, h2]
  · intro validIds merged act hu row rest newId h1 h2
    have h3 : row.taxId ∉ validIds := by simpa using h1
    simp [action, h3, h2]

/-- Witness for C1 at a concrete input: a valid id passes through unchanged. -/
theorem C1_remap_witness :
    action ["7"] [] .error false [⟨"7", []⟩] =
      { out := ⟨"7", []⟩ :: (action ["7"] [] .error false []).out,
        unknowns := (action ["7"] [] .error false []).unknowns,
        aborted := (action ["7"] [] .error false []).aborted } :=
  C1_remap.2.2.2.1 ["7"] [] .error false ⟨"7", []⟩ [] (by decide)

/-- Claim C9: with an unknowns sink configured, an unknown row is mirrored to
the unknowns sink under every disposition; under error it is mirrored even
though the run aborts with no further output, and under drop it contributes
nothing to the main output. -/
theorem C9_unknowns_sink (validIds : List String) (merged : List (String × String))
    (row : CsvRow) (rest : List CsvRow)
    (hv : validIds.contains row.taxId = false)
    (hm : merged.lookup row.taxId = none) :
    (∀ act : UnknownAction,
      (action validIds merged act true (row :: rest)).unknowns.head? = some row) ∧
    action validIds merged .error true (row :: rest) =
      { out := [], unknowns := [row], aborted := true } ∧
    (action validIds merged .drop true (row :: rest)).out =
      (action validIds merged .drop true rest).out := by
  have hv2 : row.taxId ∉ validIds := by simpa using hv
  refine ⟨?_, ?_, ?_⟩
  · intro act
    cases act <;> simp [action, hv2, hm]
  · simp [action, hv2, hm]
  · simp [action, hv2, hm]

/-- Witness for C9 at a concrete input. -/
theorem C9_unknowns_sink_witness :
    action ["1"] [] .error true [⟨"9", []⟩] =
      { out := [], unknowns := [⟨"9", []⟩], aborted := true } :=
  (C9_unknowns_sink ["1"] [] ⟨"9", []⟩ [] (by decide) (by decide)).2.1

/-! Name Repair Rule: greengenes.py lines 49-56 (_add_space). -/

/-- Name Repair Rule, modelling _add_space (greengenes.py lines 49-56).
Returns none when the Python code raises IndexError: species[len(genus)] is
evaluated whenever species starts with genus, and is out of range exactly when
species equals genus. -/
def add_space (species genus : PyStr) : Option PyStr :=
  if genus.isPrefixOf species = true then
    if h : genus.length < species.length then
      if species.get ⟨genus.length, h⟩ ≠ ' ' then
        some (species.take genus.length ++ ' ' :: species.drop genus.length)
      else some species
    else none
  else some species

/-- Counterexample to claim C2: on a species string exactly equal to the genus
the rule does not return the species unchanged; it raises IndexError
(species[len(genus)] is out of range), modelled as none. -/
theorem C2_counterexample :
    add_space (("Escherichia").data) (("Escherichia").data) = none ∧
    add_space (("Escherichia").data) (("Escherichia").data) ≠
      some (("Escherichia").data) := by
  constructor
  · decide
  · decide

/-- Claim C2 as amended: for every pair of strings, if species does not start
with genus the rule returns species unchanged; if species starts with genus and
a character follows the genus prefix, the rule inserts a single space at the
boundary when that character is not a space and returns species unchanged when
it is; if species is exactly the genus (prefix with no following character) the
rule raises an out-of-range index error instead of returning species unchanged.
The three example equations of the claim hold as stated. -/
theorem C2_amended (species genus : PyStr) :
    (genus.isPrefixOf species = false → add_space species genus = some species) ∧
    (genus.isPrefixOf species = true →
      ∀ h : genus.length < species.length,
        (species.get ⟨genus.length, h⟩ ≠ ' ' →
          add_space species genus =
            some (species.take genus.length ++ ' ' :: species.drop genus.length)) ∧
        (species.get ⟨genus.length, h⟩ = ' ' →
          add_space species genus = some species)) ∧
    (species = genus → add_space species genus = none) ∧
    add_space (("Escherichiacoli").data) (("Escherichia").data) =
      some (("Escherichia coli").data) ∧
    add_space (("Escherichia coli").data) (("Escherichia").data) =
      some (("Escherichia coli").data) ∧
    add_space (("Salmonella").data) (("Escherichia").data) =
      some (("Salmonella").data) := by
  refine ⟨?_, ?_, ?_, by decide, by decide, by decide⟩
  · intro hp
    simp [add_space, hp]
  · intro hp h
    constructor
    · intro hc
      simp only [List.get_eq_getElem] at hc
      simp [add_space, hp, h, hc]
    · intro hc
      simp only [List.get_eq_getElem] at hc
      simp [add_space, hp, h, hc]
  · intro he
    subst he
    simp [add_space, isPrefixOf_refl]

/-- Witness for C2 at a concrete input: a species that does not start with the
genus is returned unchanged. -/
theorem C2_amended_witness :
    add_space (("Salmonella enterica").data) (("Escherichia").data) =
      some (("Salmonella enterica").data) :=
  (C2_amended (("Salmonella enterica").data) (("Escherichia").data)).1 (by decide)

/-! Lineage Parser: greengenes.py lines 174-215 (_parse_classes, _parse_gg). -/

/-- Helper for pySplit; the first argument is fuel (at least the length of the
string to split) so that the recursion is structural and kernel-evaluable. -/
def pySplitAux (sep : PyStr) : Nat → PyStr → PyStr → List PyStr
  | _, [], acc => [acc.reverse]
  | 0, s, acc => [acc.reverse ++ s]
  | fuel + 1, c :: rest, acc =>
    if sep.isPrefixOf (c :: rest) = true then
      acc.reverse :: pySplitAux sep fuel (rest.drop (sep.length - 1)) []
    else pySplitAux sep fuel rest (c :: acc)

/-- Python str.split with a nonempty separator, on character lists. -/
def pySplit (sep s : PyStr) : List PyStr := pySplitAux sep s.length s []

/-- Python whitespace characters recognised by str.rstrip and int(). -/
def pyIsSpace (c : Char) : Bool :=
  c = ' ' || c = '\t' || c = '\n' || c = '\r' || c = '\x0b' || c = '\x0c'

/-- Python str.rstrip() with no argument: remove trailing whitespace. -/
def pyRstrip (s : PyStr) : PyStr := (s.reverse.dropWhile pyIsSpace).reverse

/-- Value of a nonempty all-digit string, none otherwise. -/
def digitsVal (ds : PyStr) : Option Nat :=
  if ds.isEmpty = true then none
  else if ds.all (fun c => c.isDigit) = true then some (decodeDigits ds) else none

/-- Python int() applied to a string: optional surrounding whitespace, optional
sign, then decimal digits; none models the ValueError raised otherwise. -/
def pyInt (s : PyStr) : Option Int :=
  match ((s.dropWhile pyIsSpace).reverse.dropWhile pyIsSpace).reverse with
  | '-' :: ds => (digitsVal ds).map (fun n => -(n : Int))
  | '+' :: ds => (digitsVal ds).map (fun n => (n : Int))
  | ds => (digitsVal ds).map (fun n => (n : Int))

/-- Python str() applied to an int. -/
def intToStr (i : Int) : PyStr :=
  if i < 0 then '-' :: natRepr i.natAbs else natRepr i.natAbs

/-- Models the _rank_map dict (greengenes.py lines 33-34), from rank
abbreviation to rank name. -/
def rank_map : List (PyStr × PyStr) :=
  [(("k").data, ("kingdom").data), (("p").data, ("phylum").data),
   (("c").data, ("class").data), (("o").data, ("order").data),
   (("f").data, ("family").data), (("g").data, ("genus").data),
   (("s").data, ("species").data)]

/-- Modelled from the spec: taxdb.root_name, the name and rank of the synthetic
root entry (the taxdb module is outside src/; the spec writes the entry as
(root, root)). -/
def root_name : PyStr := ("root").data

/-- Fix-up of a trailing species entry against the preceding genus entry
(greengenes.py lines 196-200), operating on the reversed result list.  none
models the IndexError raised when result[-2] does not exist or when the species
name equals the genus name (species[len(genus)] out of range, line 199). -/
def fix_species (result : List (PyStr × PyStr)) : Option (List (PyStr × PyStr)) :=
  match result.reverse with
  | [] => none
  | (r1, n1) :: rest =>
    if r1 = ("species").data then
      match rest with
      | [] => none
      | (r2, n2) :: _ =>
        if r2 = ("genus").data then
          if n2.isPrefixOf n1 = true then
            if h : n2.length < n1.length then
              if n1.get ⟨n2.length, h⟩ ≠ ' ' then do
                let fixedName ← add_space n1 n2
                pure (((r1, fixedName) :: rest).reverse)
              else pure result
            else none
          else pure result
        else pure result
    else pure result

/-- Models _parse_classes (greengenes.py lines 174-203): split the semicolon
list into rank__name tokens, keep entries with a nonempty name, prepend the
root entry, apply the genus/species fix-up, append the terminal otu entry.
none models the exceptions: a token without exactly one __ separator
(ValueError on unpacking), an unknown rank key on a token with nonempty name
(KeyError), or the fix-up IndexError. -/
def parse_classes (classes : PyStr) (otu_id : Int) : Option (List (PyStr × PyStr)) := do
  let pieces ← (pySplit ((";").data) classes).mapM (fun tok =>
    match pySplit (("__").data) tok with
    | [a, b] => some (a, b)
    | _ => none)
  let mids ← (pieces.filter (fun p => !p.2.isEmpty)).mapM (fun p =>
    (rank_map.lookup p.1).map (fun r => (r, p.2)))
  let result ← fix_species ((root_name, root_name) :: mids)
  pure (result ++ [(("otu").data, intToStr otu_id)])

/-- Models one iteration of _parse_gg (greengenes.py lines 205-215): rstrip the
line, split on tab into exactly two fields, parse the otu id with int(), then
parse the classes. -/
def parse_gg_line (line : PyStr) : Option (List (PyStr × PyStr)) :=
  match pySplit ['\t'] (pyRstrip line) with
  | [otu, classes] => do
      let n ← pyInt otu
      parse_classes classes n
  | _ => none

/-- Claim C6: parsing the input line 42, tab, k__Bacteria;p__Proteobacteria;
s__coli yields exactly the root entry, kingdom Bacteria, phylum Proteobacteria,
species coli and the terminal otu 42 entry, with no genus-space fix applied
since the genus token is missing. -/
theorem C6_parse_line :
    parse_gg_line (("42\tk__Bacteria;p__Proteobacteria;s__coli").data) =
      some [(("root").data, ("root").data),
            (("kingdom").data, ("Bacteria").data),
            (("phylum").data, ("Proteobacteria").data),
            (("species").data, ("coli").data),
            (("otu").data, ("42").data)] := by
  decide

/-! Name Cleaner search: greengenes.py lines 72-100 (find_genus and the
staging loop of _clean_species). -/

/-- Models bisect.bisect_left on the sorted genus key list: the number of
leading entries strictly below x, which for a sorted list is the index of the
first entry greater than or equal to x (the only call site passes the sorted
list sorted(all_genus)). -/
def bisect_left (keys : List PyStr) (x : PyStr) : Nat :=
  (keys.takeWhile (fun k => strLt k x)).length

/-- Models find_genus (greengenes.py lines 72-81): slice the sorted key list
from the first entry at or above the one-character string tax_name[0], take
entries strictly below tax_name, and return the first one that is a prefix of
tax_name.  The outer Option models the IndexError raised by tax_name[0] on an
empty name; the inner Option is the function's own found-or-None result. -/
def find_genus (keys : List PyStr) (tax_name : PyStr) : Option (Option PyStr) :=
  match tax_name with
  | [] => none
  | c :: _ =>
    some (((keys.drop (bisect_left keys [c])).takeWhile
        (fun k => strLt k tax_name)).find? (fun genus => genus.isPrefixOf tax_name))

/-- Staging loop of _clean_species (greengenes.py lines 95-99): for each
candidate row, search for a genus; when one is found (and is a nonempty,
hence truthy, string) stage the repaired name.  none models a propagated
exception. -/
def stage_updates (keys : List PyStr) : List (PyStr × PyStr) → Option (List (PyStr × PyStr))
  | [] => some []
  | (tax_id, tax_name) :: rest => do
    let fg ← find_genus keys tax_name
    match fg with
    | some genus =>
      if genus.isEmpty = false then do
        let newName ← add_space tax_name genus
        let staged ← stage_updates keys rest
        pure ((newName, tax_id) :: staged)
      else stage_updates keys rest
    | none => stage_updates keys rest

lemma find?_takeWhile_sorted (t : PyStr) (p : PyStr → Bool) :
    ∀ l : List PyStr, l.Pairwise (fun a b => strLt a b = true) →
      (l.takeWhile (fun k => strLt k t)).find? p =
        l.find? (fun k => strLt k t && p k) := by
  intro l
  induction l with
  | nil => simp
  | cons a l ih =>
    intro h
    by_cases hq : strLt a t = true
    · cases hp : p a
      · simp only [List.takeWhile_cons, List.find?_cons, hq, hp, Bool.true_and,
          if_true, cond_false]
        exact ih h.tail
      · simp [List.takeWhile_cons, List.find?_cons, hq, hp]
    · have hq2 : strLt a t = false := by
        revert hq
        cases strLt a t <;> simp
      have htw : (a :: l).takeWhile (fun k => strLt k t) = [] := by
        simp [List.takeWhile_cons, hq2]
      rw [htw, List.find?_nil]
      symm
      rw [List.find?_eq_none]
      intro x hx
      rcases List.mem_cons.mp hx with rfl | hx2
      · simp [hq2]
      · have hax : strLt a x = true := (List.pairwise_cons.mp h).1 x hx2
        have hxt : strLt x t = false := by
          cases hcase : strLt x t
          · rfl
          · exact absurd (strLt_trans a x t hax hcase) (by simp [hq2])
        simp [hxt]

/-- Claim C7: for a nonempty species name and the sorted genus list, the
candidate-genus search returns exactly the first entry of the list that lies at
or after the first entry greater than or equal to the name's first character,
is strictly less than the full name, and is a prefix of the name (none when no
such entry exists); and when the search returns none, the staging loop stages
no update for that species name, leaving it unmodified. -/
theorem C7_find_genus (keys : List PyStr) (c : Char) (t2 : List Char)
    (hsort : keys.Pairwise (fun a b => strLt a b = true)) :
    find_genus keys (c :: t2) =
      some ((keys.drop (bisect_left keys [c])).find?
        (fun k => strLt k (c :: t2) && k.isPrefixOf (c :: t2))) ∧
    (find_genus keys (c :: t2) = some none →
      ∀ tid : PyStr, stage_updates keys [(tid, c :: t2)] = some []) := by
  constructor
  · have hsub : (keys.drop (bisect_left keys [c])).Pairwise (fun a b => strLt a b = true) :=
      List.Pairwise.sublist (List.drop_sublist _ _) hsort
    simpa [find_genus] using find?_takeWhile_sorted (c :: t2) _ _ hsub
  · intro hnone tid
    simp [stage_updates, hnone]

/-- Witness for C7 at a concrete input: one genus Escherichia, species name
Escherichiacoli. -/
theorem C7_find_genus_witness :
    find_genus [("Escherichia").data] (("Escherichiacoli").data) =
      some (([("Escherichia").data].drop
          (bisect_left [("Escherichia").data] ['E'])).find?
        (fun k => strLt k (("Escherichiacoli").data) &&
          k.isPrefixOf (("Escherichiacoli").data))) :=
  (C7_find_genus [("Escherichia").data] 'E' (("scherichiacoli").data)
    (by simp)).1

/-- Claim C10: every candidate genus accepted by the search is strictly less
than, and a prefix of, the species name, hence strictly shorter; therefore the
repair call has a character available after the genus prefix (no out-of-range
access), and it either inserts exactly one space or returns the name
unchanged. -/
theorem C10_cleaner_safe (keys : List PyStr) (t g : PyStr)
    (h : find_genus keys t = some (some g)) :
    strLt g t = true ∧ g.isPrefixOf t = true ∧ g.length < t.length ∧
    (add_space t g = some (t.take g.length ++ ' ' :: t.drop g.length) ∨
      add_space t g = some t) := by
  match t with
  | [] => simp [find_genus] at h
  | c :: t2 =>
    simp only [find_genus, Option.some.injEq] at h
    have hfind :
        (((keys.drop (bisect_left keys [c])).takeWhile
          (fun k => strLt k (c :: t2))).find? (fun genus => genus.isPrefixOf (c :: t2))) =
          some g := h
    have hpre0 := List.find?_some hfind
    have hpre : g.isPrefixOf (c :: t2) = true := hpre0
    have hmem := List.mem_of_find?_eq_some hfind
    have hlt0 := List.mem_takeWhile_imp hmem
    have hlt : strLt g (c :: t2) = true := hlt0
    have hne : g ≠ c :: t2 := by
      intro he
      subst he
      rw [strLt_irrefl] at hlt
      exact Bool.false_ne_true hlt
    have hlen : g.length < (c :: t2).length := isPrefixOf_length_lt hpre hne
    refine ⟨hlt, hpre, hlen, ?_⟩
    by_cases hc : (c :: t2).get ⟨g.length, hlen⟩ = ' '
    · right
      rw [add_space, if_pos hpre, dif_pos hlen, if_neg (fun hcontra => hcontra hc)]
    · left
      rw [add_space, if_pos hpre, dif_pos hlen, if_pos hc]

/-- Witness for C10 at a concrete input. -/
theorem C10_cleaner_safe_witness :
    strLt (("Escherichia").data) (("Escherichiacoli").data) = true ∧
    (("Escherichia").data).isPrefixOf (("Escherichiacoli").data) = true ∧
    (("Escherichia").data).length < (("Escherichiacoli").data).length ∧
    (add_space (("Escherichiacoli").data) (("Escherichia").data) =
        some ((("Escherichiacoli").data).take (("Escherichia").data).length ++
          ' ' :: (("Escherichiacoli").data).drop (("Escherichia").data).length) ∨
      add_space (("Escherichiacoli").data) (("Escherichia").data) =
        some (("Escherichiacoli").data)) :=
  C10_cleaner_safe [("Escherichia").data] (("Escherichiacoli").data)
    (("Escherichia").data) (by decide)

/-! Lineage Loader: greengenes.py lines 102-157 (_load_rows and its inner
_get_or_insert). -/

/-- Row of the nodes table. -/
structure GGNode where
  tax_id : List Char
  parent_id : List Char
  rank : List Char
  source_id : Option Nat
deriving DecidableEq

/-- Row of the names table. -/
structure GGName where
  tax_id : List Char
  tax_name : List Char
  is_primary : Bool
deriving DecidableEq

/-- Node and name tables of the taxonomy store. -/
structure Store where
  nodes : List GGNode
  names : List GGName
deriving DecidableEq

/-- The empty store. -/
def emptyStore : Store := { nodes := [], names := [] }

/-- State of one _load_rows invocation: the store plus the process-local
counter (itertools.count(), whose first value is 0). -/
structure LoadState where
  store : Store
  counter : Nat
deriving DecidableEq

/-- Node tax_ids, in table order. -/
def storeIds (s : Store) : List (List Char) := s.nodes.map GGNode.tax_id

/-- Name-row tax_ids, in table order. -/
def nameIds (s : Store) : List (List Char) := s.names.map GGName.tax_id

/-- Name-row display names, in table order. -/
def nameStrs (s : Store) : List (List Char) := s.names.map GGName.tax_name

/-- Insert branch of _get_or_insert (greengenes.py lines 125-136): mint the
next GG identifier from the counter, let a parentless node be its own parent,
and append one node row and one primary name row. -/
def insertNew (st : LoadState) (name rk : List Char) (parent : Option (List Char))
    (sid : Option Nat) : List Char × LoadState :=
  let tid := ggId st.counter
  let pid := parent.getD tid
  (tid,
    { store :=
        { nodes := st.store.nodes ++
            [{ tax_id := tid, parent_id := pid, rank := rk, source_id := sid }],
          names := st.store.names ++
            [{ tax_id := tid, tax_name := name, is_primary := true }] },
      counter := st.counter + 1 })

/-- Models _get_or_insert (greengenes.py lines 118-136): look up an existing
name row by exact name and reuse its tax_id, else insert a new node. -/
def get_or_insert (st : LoadState) (name rk : List Char) (parent : Option (List Char))
    (sid : Option Nat) : List Char × LoadState :=
  match st.store.names.find? (fun nr => nr.tax_name == name) with
  | some nr => (nr.tax_id, st)
  | none => insertNew st name rk parent sid

/-- Walk of one lineage root-to-leaf (greengenes.py lines 141-142), threading
the running parent reference. -/
def load_classes (sid : Option Nat) :
    List (List Char × List Char) → Option (List Char) → LoadState → LoadState
  | [], _, st => st
  | (rk, nm) :: rest, parent, st =>
    let r := get_or_insert st nm rk parent sid
    load_classes sid rest (some r.1) r.2

/-- Loop over all lineages (greengenes.py lines 139-142); each lineage starts
with parent None. -/
def load_lineages (sid : Option Nat) :
    List (List (List Char × List Char)) → LoadState → LoadState
  | [], st => st
  | cl :: rest, st => load_lineages sid rest (load_classes sid cl none st)

/-- Modelled from the spec: taxdb.has_row, the helper predicate for table has
any row (the taxdb module is outside src/). -/
def has_row (l : List α) : Bool := !l.isEmpty

/-- Models _load_rows (greengenes.py lines 102-142): no action if the nodes or
names table already has a row, else walk every lineage with a fresh counter
whose first value is 0. -/
def load_rows (sid : Option Nat) (rows : List (List (List Char × List Char)))
    (store : Store) : Store :=
  if has_row store.nodes || has_row store.names then store
  else (load_lineages sid rows { store := store, counter := 0 }).store

/-- Claim C3, at the failing input: on an empty store the first synthesized
node receives the identifier GG00000000, because itertools.count() starts at 0,
while the claim (and the loader's own docstring, greengenes.py line 106) says
the first synthesized node receives GG00000001. -/
theorem C3_first_id :
    storeIds (load_rows none [[(root_name, root_name)]] emptyStore) =
      [("GG00000000").data] ∧
    ggId 0 = ("GG00000000").data ∧
    ("GG00000000").data ≠ ("GG00000001").data := by
  decide

/-- Base invariant of a load state: node and name tax_ids are exactly the
minted identifiers below the counter, display names are duplicate-free, and
every parent reference points at an existing node. -/
structure InvB (st : LoadState) : Prop where
  nodesIds : storeIds st.store = (List.range st.counter).map ggId
  namesIds : nameIds st.store = (List.range st.counter).map ggId
  namesNodup : (nameStrs st.store).Nodup
  parentsEx : ∀ n ∈ st.store.nodes, n.parent_id ∈ storeIds st.store

lemma invB_mem_ids {st : LoadState} (hb : InvB st) {x : List Char}
    (hx : x ∈ storeIds st.store) : ∃ k, k < st.counter ∧ x = ggId k := by
  rw [hb.nodesIds] at hx
  rcases List.mem_map.mp hx with ⟨k, hk, rfl⟩
  exact ⟨k, List.mem_range.mp hk, rfl⟩

lemma invB_fresh {st : LoadState} (hb : InvB st) :
    ggId st.counter ∉ storeIds st.store := by
  intro hmem
  rcases invB_mem_ids hb hmem with ⟨k, hk, he⟩
  have := ggId_injective he
  omega

lemma invB_counter_zero {st : LoadState} (hb : InvB st) (h : st.store.nodes = []) :
    st.counter = 0 ∧ st.store.names = [] := by
  have h1 : storeIds st.store = [] := by simp [storeIds, h]
  rw [hb.nodesIds] at h1
  have h3 : st.counter = 0 := by
    have h2 : List.range st.counter = [] := List.map_eq_nil_iff.mp h1
    simpa using congrArg List.length h2
  refine ⟨h3, ?_⟩
  have h4 : nameIds st.store = [] := by rw [hb.namesIds, h3]; rfl
  simpa [nameIds] using h4

lemma find?_none_not_mem {rows : List GGName} {nm : List Char}
    (h : rows.find? (fun nr => nr.tax_name == nm) = none) :
    nm ∉ rows.map GGName.tax_name := by
  intro hmem
  rcases List.mem_map.mp hmem with ⟨row, hrow, hname⟩
  have h2 := List.find?_eq_none.mp h row hrow
  apply h2
  simp [hname]

lemma head?_append_left {α : Type} (l l2 : List α) (h : l ≠ []) :
    (l ++ l2).head? = l.head? := by
  cases l with
  | nil => exact absurd rfl h
  | cons a t => rfl

lemma invB_head_id {st : LoadState} (hb : InvB st) :
    ∀ n, st.store.nodes.head? = some n → n.tax_id = ggId 0 := by
  intro n hn
  rcases hE : st.store.nodes with _ | ⟨m, tl⟩
  · rw [hE] at hn
    simp at hn
  · rw [hE] at hn
    have hm : m = n := by simpa using hn
    have hids2 : (m :: tl).map GGNode.tax_id = (List.range st.counter).map ggId := by
      rw [← hE]
      exact hb.nodesIds
    rcases hc : st.counter with _ | k
    · rw [hc] at hids2
      simp at hids2
    · rw [hc, List.range_succ_eq_map] at hids2
      simp only [List.map_cons] at hids2
      injection hids2 with h3 _
      rw [← hm]
      exact h3

lemma get_or_insert_invB (st : LoadState) (name rk : List Char)
    (parent : Option (List Char)) (sid : Option Nat)
    (hb : InvB st) (hp : ∀ p, parent = some p → p ∈ storeIds st.store) :
    InvB (get_or_insert st name rk parent sid).2 ∧
    (get_or_insert st name rk parent sid).1 ∈
      storeIds (get_or_insert st name rk parent sid).2.store ∧
    (∃ a, (get_or_insert st name rk parent sid).2.store.nodes = st.store.nodes ++ a) ∧
    (∃ b, (get_or_insert st name rk parent sid).2.store.names = st.store.names ++ b) := by
  rcases hfind : st.store.names.find? (fun nr => nr.tax_name == name) with _ | nr
  · have hG : get_or_insert st name rk parent sid = insertNew st name rk parent sid := by
      rw [get_or_insert, hfind]
    have hnotmem : name ∉ nameStrs st.store := find?_none_not_mem hfind
    have hnodes : (insertNew st name rk parent sid).2.store.nodes =
        st.store.nodes ++
          [GGNode.mk (ggId st.counter) (parent.getD (ggId st.counter)) rk sid] := rfl
    have hnames : (insertNew st name rk parent sid).2.store.names =
        st.store.names ++ [GGName.mk (ggId st.counter) name true] := rfl
    have hids : storeIds (insertNew st name rk parent sid).2.store =
        storeIds st.store ++ [ggId st.counter] := by
      simp [storeIds, hnodes]
    rw [hG]
    refine ⟨⟨?_, ?_, ?_, ?_⟩, ?_, ⟨_, hnodes⟩, ⟨_, hnames⟩⟩
    · rw [hids, hb.nodesIds]
      show _ = (List.range (st.counter + 1)).map ggId
      rw [List.range_succ, List.map_append]
      rfl
    · show nameIds (insertNew st name rk parent sid).2.store = _
      have : nameIds (insertNew st name rk parent sid).2.store =
          nameIds st.store ++ [ggId st.counter] := by
        simp [nameIds, hnames]
      rw [this, hb.namesIds]
      show _ = (List.range (st.counter + 1)).map ggId
      rw [List.range_succ, List.map_append]
      rfl
    · have hstrs : nameStrs (insertNew st name rk parent sid).2.store =
          nameStrs st.store ++ [name] := by
        simp [nameStrs, hnames]
      rw [hstrs]
      rw [(List.perm_append_singleton _ _).nodup_iff, List.nodup_cons]
      exact ⟨hnotmem, hb.namesNodup⟩
    · intro n hn
      rw [hnodes] at hn
      rcases List.mem_append.mp hn with hn1 | hn2
      · rw [hids]
        exact List.mem_append_left _ (hb.parentsEx n hn1)
      · have hx : n =
            GGNode.mk (ggId st.counter) (parent.getD (ggId st.counter)) rk sid := by
          simpa using hn2
        subst hx
        rcases parent with _ | p
        · rw [hids]
          exact List.mem_append_right _ (by simp)
        · rw [hids]
          exact List.mem_append_left _ (hp p rfl)
    · rw [hids]
      show ggId st.counter ∈ _
      exact List.mem_append_right _ (by simp)
  · have hG : get_or_insert st name rk parent sid = (nr.tax_id, st) := by
      rw [get_or_insert, hfind]
    rw [hG]
    refine ⟨hb, ?_, ⟨[], by simp⟩, ⟨[], by simp⟩⟩
    have hmem : nr ∈ st.store.names := List.mem_of_find?_eq_some hfind
    have : nr.tax_id ∈ nameIds st.store := List.mem_map_of_mem _ hmem
    rw [hb.namesIds] at this
    rw [show storeIds (nr.tax_id, st).2.store = storeIds st.store from rfl, hb.nodesIds]
    exact this

/-- Root invariant, relative to the shared first-entry name of the lineages:
only the very first node is its own parent, the root name is present once the
store is nonempty, and the head node is its own parent. -/
structure InvR (rootName : List Char) (st : LoadState) : Prop where
  base : InvB st
  selfOnlyFirst : ∀ n ∈ st.store.nodes, n.parent_id = n.tax_id → n.tax_id = ggId 0
  rootPresent : st.store.nodes ≠ [] → rootName ∈ nameStrs st.store
  firstSelf : ∀ n, st.store.nodes.head? = some n → n.parent_id = n.tax_id

lemma get_or_insert_invR (rootName : List Char) (st : LoadState) (name rk : List Char)
    (parent : Option (List Char)) (sid : Option Nat)
    (hr : InvR rootName st) (hp : ∀ p, parent = some p → p ∈ storeIds st.store)
    (hroot : parent = none → name = rootName) :
    InvR rootName (get_or_insert st name rk parent sid).2 ∧
    (get_or_insert st name rk parent sid).1 ∈
      storeIds (get_or_insert st name rk parent sid).2.store := by
  obtain ⟨hbase2, hret, -, -⟩ := get_or_insert_invB st name rk parent sid hr.base hp
  have hcore : (∀ n ∈ (get_or_insert st name rk parent sid).2.store.nodes,
        n.parent_id = n.tax_id → n.tax_id = ggId 0) ∧
      ((get_or_insert st name rk parent sid).2.store.nodes ≠ [] →
        rootName ∈ nameStrs (get_or_insert st name rk parent sid).2.store) ∧
      (∀ n, (get_or_insert st name rk parent sid).2.store.nodes.head? = some n →
        n.parent_id = n.tax_id) := by
    rcases hfind : st.store.names.find? (fun nr => nr.tax_name == name) with _ | nr
    · have hG : get_or_insert st name rk parent sid = insertNew st name rk parent sid := by
        rw [get_or_insert, hfind]
      rw [hG]
      have hnodes : (insertNew st name rk parent sid).2.store.nodes =
          st.store.nodes ++
            [GGNode.mk (ggId st.counter) (parent.getD (ggId st.counter)) rk sid] := rfl
      have hnames : (insertNew st name rk parent sid).2.store.names =
          st.store.names ++ [GGName.mk (ggId st.counter) name true] := rfl
      have hnotmem : name ∉ nameStrs st.store := find?_none_not_mem hfind
      rcases parent with _ | p
      · have hname : name = rootName := hroot rfl
        rcases hE : st.store.nodes with _ | ⟨m, tl⟩
        · obtain ⟨hc0, hnamesnil⟩ := invB_counter_zero hr.base hE
          refine ⟨?_, ?_, ?_⟩
          · intro n hn _
            rw [hnodes, hE] at hn
            have hxn : n =
                GGNode.mk (ggId st.counter) (Option.getD none (ggId st.counter)) rk sid := by
              simpa using hn
            rw [hxn, hc0]
          · intro _
            have hns : nameStrs (insertNew st name rk none sid).2.store = [name] := by
              simp [nameStrs, hnames, hnamesnil]
            rw [hns, hname]
            simp
          · intro n hn
            rw [hnodes, hE] at hn
            have hxn : n =
                GGNode.mk (ggId st.counter) (Option.getD none (ggId st.counter)) rk sid := by
              have := hn
              simpa using this.symm
            rw [hxn]
            rfl
        · have hne : st.store.nodes ≠ [] := by rw [hE]; simp
          have h1 : rootName ∈ nameStrs st.store := hr.rootPresent hne
          rw [← hname] at h1
          exact absurd h1 hnotmem
      · have hpm := hp p rfl
        have hnodesne : st.store.nodes ≠ [] := by
          intro h0
          rw [show storeIds st.store = [] from by simp [storeIds, h0]] at hpm
          simp at hpm
        refine ⟨?_, ?_, ?_⟩
        · intro n hn hself
          rw [hnodes] at hn
          rcases List.mem_append.mp hn with hn1 | hn2
          · exact hr.selfOnlyFirst n hn1 hself
          · have hxn : n =
                GGNode.mk (ggId st.counter) (Option.getD (some p) (ggId st.counter)) rk sid := by
              simpa using hn2
            rw [hxn] at hself
            have h5 : p = ggId st.counter := hself
            exact absurd (h5 ▸ hpm) (invB_fresh hr.base)
        · intro _
          have h1 := hr.rootPresent hnodesne
          have hns : nameStrs (insertNew st name rk (some p) sid).2.store =
              nameStrs st.store ++ [name] := by
            simp [nameStrs, hnames]
          rw [hns]
          exact List.mem_append_left _ h1
        · intro n hn
          rw [hnodes, head?_append_left _ _ hnodesne] at hn
          exact hr.firstSelf n hn
    · have hG : get_or_insert st name rk parent sid = (nr.tax_id, st) := by
        rw [get_or_insert, hfind]
      rw [hG]
      exact ⟨hr.selfOnlyFirst, hr.rootPresent, hr.firstSelf⟩
  exact ⟨⟨hbase2, hcore.1, hcore.2.1, hcore.2.2⟩, hret⟩

lemma load_classes_invB (sid : Option Nat) :
    ∀ (cl : List (List Char × List Char)) (parent : Option (List Char)) (st : LoadState),
      InvB st → (∀ p, parent = some p → p ∈ storeIds st.store) →
      InvB (load_classes sid cl parent st) ∧
      (∃ a, (load_classes sid cl parent st).store.nodes = st.store.nodes ++ a) ∧
      (∃ b, (load_classes sid cl parent st).store.names = st.store.names ++ b) := by
  intro cl
  induction cl with
  | nil =>
    intro parent st hb _
    exact ⟨hb, ⟨[], by simp [load_classes]⟩, ⟨[], by simp [load_classes]⟩⟩
  | cons pr rest ih =>
    rcases pr with ⟨rk, nm⟩
    intro parent st hb hp
    obtain ⟨hb2, hret, ⟨a1, ha1⟩, ⟨b1, hb1⟩⟩ := get_or_insert_invB st nm rk parent sid hb hp
    obtain ⟨hb3, ⟨a2, ha2⟩, ⟨b2, hb2p⟩⟩ :=
      ih (some (get_or_insert st nm rk parent sid).1) (get_or_insert st nm rk parent sid).2
        hb2 (fun p hpe => by cases hpe; exact hret)
    refine ⟨hb3, ⟨a1 ++ a2, ?_⟩, ⟨b1 ++ b2, ?_⟩⟩
    · show (load_classes sid rest (some (get_or_insert st nm rk parent sid).1)
        (get_or_insert st nm rk parent sid).2).store.nodes = _
      rw [ha2, ha1, List.append_assoc]
    · show (load_classes sid rest (some (get_or_insert st nm rk parent sid).1)
        (get_or_insert st nm rk parent sid).2).store.names = _
      rw [hb2p, hb1, List.append_assoc]

lemma load_classes_invR (sid : Option Nat) (rootName : List Char) :
    ∀ (cl : List (List Char × List Char)) (parent : Option (List Char)) (st : LoadState),
      InvR rootName st → (∀ p, parent = some p → p ∈ storeIds st.store) →
      (parent = none → ∀ hd, cl.head? = some hd → hd.2 = rootName) →
      InvR rootName (load_classes sid cl parent st) := by
  intro cl
  induction cl with
  | nil =>
    intro parent st hr _ _
    exact hr
  | cons pr rest ih =>
    rcases pr with ⟨rk, nm⟩
    intro parent st hr hp hroot
    have hroot2 : parent = none → nm = rootName := by
      intro hpe
      exact hroot hpe (rk, nm) rfl
    obtain ⟨hr2, hret⟩ := get_or_insert_invR rootName st nm rk parent sid hr hp hroot2
    exact ih (some (get_or_insert st nm rk parent sid).1) (get_or_insert st nm rk parent sid).2
      hr2 (fun p hpe => by cases hpe; exact hret) (fun hpe => by cases hpe)

lemma load_lineages_invB (sid : Option Nat) :
    ∀ (rows : List (List (List Char × List Char))) (st : LoadState),
      InvB st → InvB (load_lineages sid rows st) := by
  intro rows
  induction rows with
  | nil => intro st hb; exact hb
  | cons cl rest ih =>
    intro st hb
    exact ih _ ((load_classes_invB sid cl none st hb (fun p hpe => by cases hpe)).1)

lemma load_lineages_invR (sid : Option Nat) (rootName : List Char) :
    ∀ (rows : List (List (List Char × List Char))) (st : LoadState),
      InvR rootName st →
      (∀ cl ∈ rows, ∀ hd, cl.head? = some hd → hd.2 = rootName) →
      InvR rootName (load_lineages sid rows st) := by
  intro rows
  induction rows with
  | nil => intro st hr _; exact hr
  | cons cl rest ih =>
    intro st hr hroot
    exact ih _
      (load_classes_invR sid rootName cl none st hr (fun p hpe => by cases hpe)
        (fun _ => hroot cl (by simp)))
      (fun cl2 h2 => hroot cl2 (by simp [h2]))

lemma invB_init : InvB { store := emptyStore, counter := 0 } := by
  refine ⟨?_, ?_, ?_, ?_⟩ <;> simp [storeIds, nameIds, nameStrs, emptyStore]

lemma invR_init (rootName : List Char) : InvR rootName { store := emptyStore, counter := 0 } := by
  refine ⟨invB_init, ?_, ?_, ?_⟩ <;> simp [emptyStore]

lemma load_rows_guard (sid : Option Nat) (rows : List (List (List Char × List Char)))
    (store : Store) (h : (has_row store.nodes || has_row store.names) = true) :
    load_rows sid rows store = store := by
  rw [load_rows, if_pos h]

lemma load_rows_empty (sid : Option Nat) (rows : List (List (List Char × List Char))) :
    load_rows sid rows emptyStore =
      (load_lineages sid rows { store := emptyStore, counter := 0 }).store := by
  rw [load_rows, if_neg (by decide)]

/-- Claim C4: a load on a store whose nodes or names table already has a row is
a no-op; loading the same lineages twice starting from an empty store gives the
same node and name table state as loading once, and that state has no duplicate
node ids, no duplicate name-row ids and no duplicate names. -/
theorem C4_idempotent_load (sid : Option Nat) :
    (∀ (rows : List (List (List Char × List Char))) (store : Store),
      (has_row store.nodes || has_row store.names) = true →
      load_rows sid rows store = store) ∧
    (∀ rows, load_rows sid rows (load_rows sid rows emptyStore) =
      load_rows sid rows emptyStore) ∧
    (∀ rows,
      (storeIds (load_rows sid rows (load_rows sid rows emptyStore))).Nodup ∧
      (nameIds (load_rows sid rows (load_rows sid rows emptyStore))).Nodup ∧
      (nameStrs (load_rows sid rows (load_rows sid rows emptyStore))).Nodup) := by
  have hguard : ∀ rows store, (has_row store.nodes || has_row store.names) = true →
      load_rows sid rows store = store :=
    fun rows store h => load_rows_guard sid rows store h
  have htwice : ∀ rows, load_rows sid rows (load_rows sid rows emptyStore) =
      load_rows sid rows emptyStore := by
    intro rows
    by_cases hb : (has_row (load_rows sid rows emptyStore).nodes ||
        has_row (load_rows sid rows emptyStore).names) = true
    · exact hguard rows _ hb
    · have hb2 : has_row (load_rows sid rows emptyStore).nodes = false ∧
          has_row (load_rows sid rows emptyStore).names = false := by
        rcases h1 : has_row (load_rows sid rows emptyStore).nodes <;>
          rcases h2 : has_row (load_rows sid rows emptyStore).names <;>
            simp_all
      have hn1 : (load_rows sid rows emptyStore).nodes = [] := by
        have := hb2.1
        rcases hE : (load_rows sid rows emptyStore).nodes with _ | ⟨x, xs⟩
        · rfl
        · rw [hE] at this
          simp [has_row] at this
      have hn2 : (load_rows sid rows emptyStore).names = [] := by
        have := hb2.2
        rcases hE : (load_rows sid rows emptyStore).names with _ | ⟨x, xs⟩
        · rfl
        · rw [hE] at this
          simp [has_row] at this
      have hES : load_rows sid rows emptyStore = emptyStore := by
        rcases hE : load_rows sid rows emptyStore with ⟨ns, ms⟩
        rw [hE] at hn1 hn2
        rw [show ns = (Store.mk ns ms).nodes from rfl] at hn1
        rw [show ms = (Store.mk ns ms).names from rfl] at hn2
        simp only at hn1 hn2
        rw [emptyStore, hn1, hn2]
      rw [hES]
      exact hES
  refine ⟨hguard, htwice, ?_⟩
  intro rows
  have hB := load_lineages_invB sid rows { store := emptyStore, counter := 0 } invB_init
  have hstore := load_rows_empty sid rows
  rw [htwice rows, hstore]
  refine ⟨?_, ?_, ?_⟩
  · rw [show storeIds (load_lineages sid rows { store := emptyStore, counter := 0 }).store =
      (List.range (load_lineages sid rows { store := emptyStore, counter := 0 }).counter).map
        ggId from hB.nodesIds]
    exact (List.nodup_range _).map ggId_injective
  · rw [show nameIds (load_lineages sid rows { store := emptyStore, counter := 0 }).store =
      (List.range (load_lineages sid rows { store := emptyStore, counter := 0 }).counter).map
        ggId from hB.namesIds]
    exact (List.nodup_range _).map ggId_injective
  · exact hB.namesNodup

/-- Witness for C4 at a concrete input: a store whose nodes table already has a
row is left unchanged. -/
theorem C4_idempotent_load_witness :
    load_rows none []
        (Store.mk [GGNode.mk (("x").data) (("x").data) (("otu").data) none] []) =
      Store.mk [GGNode.mk (("x").data) (("x").data) (("otu").data) none] [] :=
  (C4_idempotent_load none).1 []
    (Store.mk [GGNode.mk (("x").data) (("x").data) (("otu").data) none] []) (by decide)

/-- Claim C5: after a load on an empty store whose lineages each begin with the
shared root entry (as every parsed lineage does), the first node is its own
parent, every node's parent_id references a node present in the store, and any
self-parented node is the first node. -/
theorem C5_parent_links (sid : Option Nat) (rootName : List Char)
    (rows : List (List (List Char × List Char)))
    (hroot : ∀ cl ∈ rows, ∀ hd, cl.head? = some hd → hd.2 = rootName) :
    (∀ n, (load_rows sid rows emptyStore).nodes.head? = some n →
      n.parent_id = n.tax_id) ∧
    (∀ x ∈ (load_rows sid rows emptyStore).nodes,
      x.parent_id ∈ storeIds (load_rows sid rows emptyStore)) ∧
    (∀ x ∈ (load_rows sid rows emptyStore).nodes, x.parent_id = x.tax_id →
      ∀ n, (load_rows sid rows emptyStore).nodes.head? = some n →
        x.tax_id = n.tax_id) := by
  have hR := load_lineages_invR sid rootName rows { store := emptyStore, counter := 0 }
    (invR_init rootName) hroot
  have hstore := load_rows_empty sid rows
  rw [hstore]
  refine ⟨hR.firstSelf, hR.base.parentsEx, ?_⟩
  intro x hx hself n hn
  have hx0 : x.tax_id = ggId 0 := hR.selfOnlyFirst x hx hself
  have hn0 : n.tax_id = ggId 0 := invB_head_id hR.base n hn
  rw [hx0, hn0]

/-- Witness for C5 at a concrete input: a single lineage consisting of the root
entry alone; the parent of the single created node is a stored node id. -/
theorem C5_parent_links_witness :
    (GGNode.mk (ggId 0) (ggId 0) root_name none).parent_id ∈
      storeIds (load_rows none [[(root_name, root_name)]] emptyStore) :=
  (C5_parent_links none root_name [[(root_name, root_name)]]
      (by
        intro cl hcl hd hhd
        simp only [List.mem_singleton] at hcl
        subst hcl
        simp only [List.head?_cons, Option.some.injEq] at hhd
        rw [← hhd])).2.1
    (GGNode.mk (ggId 0) (ggId 0) root_name none) (by decide)

/-! Candidate query of the Name Cleaner: greengenes.py lines 84-90, modelled
with SQLite semantics for its expressions. -/

/-- SQLite value of storage class INTEGER or TEXT. -/
inductive SqlVal where
  | int : Int → SqlVal
  | text : PyStr → SqlVal
deriving DecidableEq

/-- SQLite coercion of a text value to a number for arithmetic: the longest
leading integer (optional surrounding space, optional sign, digits; real-number
syntax never arises in this development), 0 when there is none. -/
def sqliteTextToInt (s : PyStr) : Int :=
  match s.dropWhile pyIsSpace with
  | '-' :: ds => -(Int.ofNat (decodeDigits (ds.takeWhile (fun c => c.isDigit))))
  | '+' :: ds => Int.ofNat (decodeDigits (ds.takeWhile (fun c => c.isDigit)))
  | ds => Int.ofNat (decodeDigits (ds.takeWhile (fun c => c.isDigit)))

/-- Numeric value of a SQLite operand of the + operator. -/
def SqlVal.toNum : SqlVal → Int
  | .int i => i
  | .text s => sqliteTextToInt s

/-- SQLite +, which is numeric addition, never string concatenation. -/
def sqlAdd (a b : SqlVal) : SqlVal := .int (a.toNum + b.toNum)

/-- SQLite equality of two values where neither side carries a column
affinity: values of different storage classes are never equal. -/
def sqlEqVal : SqlVal → SqlVal → Bool
  | .int a, .int b => a == b
  | .text a, .text b => a == b
  | _, _ => false

/-- SQLite SUBSTR(s, 1, n) on a text value: the first n characters. -/
def sqlSubstr1 (s : PyStr) (n : Nat) : SqlVal := .text (s.take n)

/-- The third WHERE conjunct of the candidate query (greengenes.py lines
89-90): SUBSTR(sname.tax_name, 1, LENGTH(gname.tax_name) + 1) <>
gname.tax_name + ' '. -/
def cleanCondition (sname gname : PyStr) : Bool :=
  !(sqlEqVal (sqlSubstr1 sname (gname.length + 1))
      (sqlAdd (.text gname) (.text [' '])))

/-- The candidate query of _clean_species (greengenes.py lines 84-90): join
each node with its parent node and both their name rows, keep rows where the
child has rank species, the parent has rank genus and cleanCondition holds,
and project (child id, child name); DISTINCT is modelled as dedup. -/
def clean_candidates (st : Store) : List (PyStr × PyStr) :=
  (st.nodes.flatMap (fun snode =>
    st.nodes.flatMap (fun gnode =>
      st.names.flatMap (fun sname =>
        st.names.filterMap (fun gname =>
          if snode.parent_id = gnode.tax_id ∧ sname.tax_id = snode.tax_id ∧
              gname.tax_id = gnode.tax_id ∧ snode.rank = ("species").data ∧
              gnode.rank = ("genus").data ∧
              cleanCondition sname.tax_name gname.tax_name = true
          then some (snode.tax_id, sname.tax_name) else none))))).dedup

/-- Store with a genus Escherichia and a species under it already named with
the genus followed by a space. -/
def exCleanStore : Store :=
  Store.mk
    [GGNode.mk (("G1").data) (("G1").data) (("genus").data) none,
     GGNode.mk (("S1").data) (("G1").data) (("species").data) none]
    [GGName.mk (("G1").data) (("Escherichia").data) true,
     GGName.mk (("S1").data) (("Escherichia coli").data) true]

/-- Claim C8, at the failing input: in SQLite + is numeric addition, so the
query's third conjunct compares a TEXT value with an INTEGER and is true for
every row; a species already of the form genus-space-rest under its genus
parent IS selected, contrary to the claim and to the comment above the query
(greengenes.py line 83). -/
theorem C8_query_selects_repaired :
    (("S1").data, ("Escherichia coli").data) ∈ clean_candidates exCleanStore ∧
    (("Escherichia coli").data).take ((("Escherichia").data).length + 1) =
      ("Escherichia ").data ∧
    (∀ sname gname : PyStr, cleanCondition sname gname = true) := by
  refine ⟨by decide, by decide, ?_⟩
  intro sname gname
  rfl

/-- Witness for C8 at a concrete input: the condition is true even for the
already-repaired species name. -/
theorem C8_query_selects_repaired_witness :
    cleanCondition (("Escherichia coli").data) (("Escherichia").data) = true :=
  C8_query_selects_repaired.2.2 (("Escherichia coli").data) (("Escherichia").data)

end Taxtastic
